import Mathlib

/-!
# Shallow embedding of the flux rendering core

This file embeds the CPU-side pipeline-orchestration logic of the flux
repository (src/crates/flux/src/noise.rs and src/flux/src/drawer.rs) in
Lean 4 and proves the specified properties about it.

Modelling conventions:
* `f32` values are modelled as `ℚ` with exact arithmetic; the claims under
  verification are about comparisons, clamps and linear updates that the
  code performs, so the rational model mirrors the code's control flow and
  data flow exactly.
* GPU uniform buffers are modelled as `List ℚ`, one entry per 4-byte `f32`
  slot, so the byte range `[4*i, 4*(i+1))` of the real buffer is entry `i`.
* GPU draw calls are modelled as explicit `DrawEvent` values collected in a
  list; a function that issues no GPU commands returns an empty list.
* Texture/framebuffer handles are opaque `ℕ` identifiers.
-/

/-- The two blend shader variants, from `settings::BlendMethod`
(matched in `NoiseInjector::blend_noise_into`). -/
inductive BlendMethod where
  | Curl : BlendMethod
  | Wiggle : BlendMethod
deriving DecidableEq, Repr

/-- Modelled from the spec: `settings::Noise` is not under src/; §3 of the
spec lists NoiseConfig = {scale, offset_1, offset_2, multiplier,
blend_threshold, offset_increment, delay, blend_duration, blend_method},
which matches every field access noise.rs performs on it. -/
structure Noise where
  scale : ℚ
  offset_1 : ℚ
  offset_2 : ℚ
  multiplier : ℚ
  blend_threshold : ℚ
  offset_increment : ℚ
  delay : ℚ
  blend_duration : ℚ
  blend_method : BlendMethod
deriving DecidableEq, Repr

/-- The shader programs owned by `NoiseInjector` (noise.rs). -/
inductive Shader where
  | simplexNoise : Shader
  | blendWithCurl : Shader
  | blendWithWiggle : Shader
deriving DecidableEq, Repr

/-- One recorded GPU draw call with the bindings the claims talk about:
shader program, the `uBlendProgress` uniform if it was set, the textures
bound to texture units 0 and 1 if any, the uniform-block contents bound at
slot 3 at draw time, and the render-target texture. -/
structure DrawEvent where
  shader : Shader
  uBlendProgress : Option ℚ
  tex0 : Option ℕ
  tex1 : Option ℕ
  uniformBlock : List ℚ
  target : ℕ
deriving DecidableEq, Repr

/-- `glBufferSubData`: overwrite `vals.length` consecutive `f32` slots of
`buf` starting at slot `off` (byte offset `4*off`). All call sites in the
embedded code write within the buffer's bounds. -/
def bufferSubData (buf : List ℚ) (off : ℕ) (vals : List ℚ) : List ℚ :=
  buf.take off ++ vals ++ buf.drop (off + vals.length)

/-- The `NoiseUniforms` record (noise.rs lines 21-31) serialized to its
uniform-buffer image: 8 `f32` slots
{frequency, offset_1, offset_2, multiplier, texel_size[0], texel_size[1],
 blend_threshold, pad2}, populated the way both `add_noise` and
`update_channel` populate it. -/
def mkNoiseUniforms (noise : Noise) (width height : ℕ) : List ℚ :=
  [noise.scale, noise.offset_1, noise.offset_2, noise.multiplier,
   1 / (width : ℚ), 1 / (height : ℚ), noise.blend_threshold, 0]

/-- `NoiseChannel` (noise.rs lines 33-41). `textureId` is the handle of the
channel's offscreen `Framebuffer`; `uniforms` is the contents of the
channel's uniform buffer. -/
structure NoiseChannel where
  noise : Noise
  textureId : ℕ
  blend_begin_time : ℚ
  last_blend_progress : ℚ
  offset1 : ℚ
  offset2 : ℚ
  uniforms : List ℚ
deriving DecidableEq, Repr

/-- `NoiseChannel::tick` (noise.rs lines 44-59): reset the blend clock and
progress, advance both phase accumulators by `offset_increment`, and write
the two offsets into the uniform buffer at byte offset `1 * 4` (8 bytes,
i.e. slots 1 and 2). -/
def NoiseChannel.tick (c : NoiseChannel) (elapsed_time : ℚ) : NoiseChannel :=
  let o1 := c.offset1 + c.noise.offset_increment
  let o2 := c.offset2 + c.noise.offset_increment
  { c with
    blend_begin_time := elapsed_time
    last_blend_progress := 0
    offset1 := o1
    offset2 := o2
    uniforms := bufferSubData c.uniforms 1 [o1, o2] }

/-- `NoiseInjector` (noise.rs lines 62-72); the `Context`, programs and
shared quad geometry carry no claim-relevant state and are omitted. -/
structure NoiseInjector where
  channels : List NoiseChannel
  width : ℕ
  height : ℕ
deriving DecidableEq, Repr

/-- Body of `NoiseInjector::update_channel` once the channel has been
found: replace the stored config and rewrite the whole uniform buffer from
it (sub-data write at offset 0 of the full `NoiseUniforms` record). -/
def updateChannelNoise (c : NoiseChannel) (noise : Noise) (width height : ℕ) :
    NoiseChannel :=
  { c with
    noise := noise
    uniforms := bufferSubData c.uniforms 0 (mkNoiseUniforms noise width height) }

/-- `NoiseInjector::update_channel` (noise.rs lines 75-100): look the
channel up with `get_mut`; silently do nothing when the index is out of
bounds. Issues no draw calls. -/
def NoiseInjector.update_channel (inj : NoiseInjector) (channel_number : ℕ)
    (noise : Noise) : NoiseInjector :=
  if channel_number < inj.channels.length then
    { inj with channels :=
        (inj.channels.modify
          (fun c => updateChannelNoise c noise inj.width inj.height)
          channel_number) }
  else
    inj

/-- `NoiseInjector::add_noise` (noise.rs lines 181-223): allocate a fresh
zero-initialized texture (handle supplied by the GPU layer, modelled as the
argument `textureId`), build the uniform buffer once from the config, and
push the new channel with `blend_begin_time = 0`, `last_blend_progress = 0`
and the accumulators seeded from the config's offsets. -/
def NoiseInjector.add_noise (inj : NoiseInjector) (noise : Noise)
    (textureId : ℕ) : NoiseInjector :=
  { inj with
    channels := inj.channels ++
      [{ noise := noise
         textureId := textureId
         blend_begin_time := 0
         last_blend_progress := 0
         offset1 := noise.offset_1
         offset2 := noise.offset_2
         uniforms := mkNoiseUniforms noise inj.width inj.height }] }

/-- The draw call issued by a noise-generation pass on channel `c`
(noise.rs lines 230-245 and 253-265): simplex-noise shader, channel's
uniform buffer bound at slot 3, rendering into the channel's texture; no
samplers and no `uBlendProgress` uniform. -/
def genDraw (c : NoiseChannel) : DrawEvent :=
  { shader := Shader.simplexNoise
    uBlendProgress := none
    tex0 := none
    tex1 := none
    uniformBlock := c.uniforms
    target := c.textureId }

/-- Per-channel body of `NoiseInjector::generate_all` (noise.rs lines
226-248): run the generation pass and then tick the channel, but only when
`elapsed_time - blend_begin_time >= delay`; otherwise leave the channel
untouched and issue nothing. -/
def generateStep (elapsed_time : ℚ) (c : NoiseChannel) :
    NoiseChannel × List DrawEvent :=
  if c.noise.delay ≤ elapsed_time - c.blend_begin_time then
    (c.tick elapsed_time, [genDraw c])
  else
    (c, [])

/-- `NoiseInjector::generate_all` (noise.rs lines 225-250): apply
`generateStep` to every channel in order, collecting the draw calls. -/
def NoiseInjector.generate_all (inj : NoiseInjector) (elapsed_time : ℚ) :
    NoiseInjector × List DrawEvent :=
  ({ inj with channels :=
      inj.channels.map (fun c => (generateStep elapsed_time c).1) },
   (inj.channels.map (fun c => (generateStep elapsed_time c).2)).flatten)

/-- `NoiseInjector::generate_by_channel_number` (noise.rs lines 251-269):
if the index is in bounds, unconditionally run the generation pass and tick
the channel — there is no delay comparison in this function; out of bounds
it is a silent no-op. -/
def NoiseInjector.generate_by_channel_number (inj : NoiseInjector)
    (channel_number : ℕ) (elapsed_time : ℚ) : NoiseInjector × List DrawEvent :=
  match inj.channels[channel_number]? with
  | some c =>
      ({ inj with channels :=
          inj.channels.modify (fun ch => ch.tick elapsed_time) channel_number },
       [genDraw c])
  | none => (inj, [])

/-- `clamp(x, 0.0, 1.0)` on the blend ratio: the blend progress computed at
the top of `blend_noise_into` (noise.rs lines 277-279). -/
def progressOf (c : NoiseChannel) (elapsed_time : ℚ) : ℚ :=
  max 0 (min 1 ((elapsed_time - c.blend_begin_time) / c.noise.blend_duration))

/-- Shader selected by `blend_method` (noise.rs lines 286-289). -/
def blendShader : BlendMethod → Shader
  | BlendMethod.Curl => Shader.blendWithCurl
  | BlendMethod.Wiggle => Shader.blendWithWiggle

/-- Per-channel body of `NoiseInjector::blend_noise_into` (noise.rs lines
276-322): compute the clamped progress; if `progress >= 1.0 - 0.0001` skip
the channel (`continue`) leaving it unchanged; otherwise issue one draw with
`uBlendProgress = progress - last_blend_progress`, the target's texture on
unit 0 and the channel's noise texture on unit 1, then store
`last_blend_progress = progress`. -/
def blendChannelStep (targetTex : ℕ) (elapsed_time : ℚ) (c : NoiseChannel) :
    NoiseChannel × List DrawEvent :=
  let blend_progress := progressOf c elapsed_time
  if 1 - 1/10000 ≤ blend_progress then
    (c, [])
  else
    ({ c with last_blend_progress := blend_progress },
     [{ shader := blendShader c.noise.blend_method
        uBlendProgress := some (blend_progress - c.last_blend_progress)
        tex0 := some targetTex
        tex1 := some c.textureId
        uniformBlock := c.uniforms
        target := targetTex }])

/-- `NoiseInjector::blend_noise_into` (noise.rs lines 271-323): apply
`blendChannelStep` to every channel in order. -/
def NoiseInjector.blend_noise_into (inj : NoiseInjector) (targetTex : ℕ)
    (elapsed_time : ℚ) : NoiseInjector × List DrawEvent :=
  ({ inj with channels :=
      inj.channels.map (fun c => (blendChannelStep targetTex elapsed_time c).1) },
   (inj.channels.map
      (fun c => (blendChannelStep targetTex elapsed_time c).2)).flatten)

/-- The successive `last_blend_progress` values of one channel along a
sequence of `blend_noise_into` frames (one blend cycle: no tick in
between), starting from the given channel state. -/
def blendLastTrace (targetTex : ℕ) (c : NoiseChannel) (ts : List ℚ) : List ℚ :=
  (ts.scanl (fun ch t => (blendChannelStep targetTex t ch).1) c).map
    NoiseChannel.last_blend_progress

/-! ## The line-field drawer (src/flux/src/drawer.rs) -/

/-- `LineState` (drawer.rs lines 20-28): 10 `f32` fields — endpoint [2],
velocity [2], color [4], width, opacity — `repr(C)`, 40 bytes. -/
structure LineState where
  endpoint : ℚ × ℚ
  velocity : ℚ × ℚ
  color : ℚ × ℚ × ℚ × ℚ
  width : ℚ
  opacity : ℚ
deriving DecidableEq, Repr

/-- `std::mem::size_of::<LineState>()`: 10 `f32` fields of 4 bytes each. -/
def LineState.sizeOfBytes : ℕ := 10 * 4

/-- Serialize one `LineState` to its 10 `f32` slots in declaration order. -/
def LineState.toFloats (s : LineState) : List ℚ :=
  [s.endpoint.1, s.endpoint.2, s.velocity.1, s.velocity.2,
   s.color.1, s.color.2.1, s.color.2.2.1, s.color.2.2.2, s.width, s.opacity]

/-- `new_line_state` (drawer.rs lines 683-702): `rows = height / grid_spacing`,
`cols = width / grid_spacing` (integer division), and one identical seed
`LineState` pushed for every grid cell, row-major. -/
def new_line_state (width height grid_spacing : ℕ) : List LineState :=
  List.replicate ((height / grid_spacing) * (width / grid_spacing))
    { endpoint := (1/1000, 1/1000)
      velocity := (1/100, 1/100)
      color := (0, 0, 0, 0)
      width := 0
      opacity := 0 }

/-- `compute_grid_size` (drawer.rs lines 654-666): aspect ratio `w/h` as a
real quotient; in landscape (`aspect_ratio > 1`) the first component is the
1000 base units and the second is `1000 / aspect_ratio` truncated toward
zero (`as u32`); otherwise the roles are swapped. -/
def compute_grid_size (width height : ℕ) : ℕ × ℕ :=
  let base_units : ℕ := 1000
  let aspect_ratio : ℚ := (width : ℚ) / (height : ℚ)
  if 1 < aspect_ratio then
    (base_units, ⌊(base_units : ℚ) / aspect_ratio⌋₊)
  else
    (⌊(base_units : ℚ) * aspect_ratio⌋₊, base_units)

/-- The claim-relevant state of `Drawer` (drawer.rs lines 50-79): screen and
grid dimensions, the line count, and the contents of the primary line-state
buffer as a flat list of `f32` slots. -/
structure Drawer where
  grid_spacing : ℕ
  screen_width : ℕ
  screen_height : ℕ
  grid_width : ℕ
  grid_height : ℕ
  line_count : ℕ
  line_state_buffer : List ℚ
deriving DecidableEq, Repr

/-- `Drawer::new` (drawer.rs lines 82-99): grid size from
`compute_grid_size`, `line_count = (grid_width / grid_spacing) *
(grid_height / grid_spacing)` with `u32` integer division, and the primary
line-state buffer filled from `new_line_state`. -/
def Drawer.new (screen_width screen_height grid_spacing : ℕ) : Drawer :=
  let gs := compute_grid_size screen_width screen_height
  { grid_spacing := grid_spacing
    screen_width := screen_width
    screen_height := screen_height
    grid_width := gs.1
    grid_height := gs.2
    line_count := (gs.1 / grid_spacing) * (gs.2 / grid_spacing)
    line_state_buffer :=
      ((new_line_state gs.1 gs.2 grid_spacing).map LineState.toFloats).flatten }

/-- `Drawer::resize` (drawer.rs lines 501-511): recompute the grid size and
store the new screen/grid dimensions; `line_count` and the line-state
buffer are not touched (the antialiasing pass resize carries no modelled
state). -/
def Drawer.resize (d : Drawer) (width height : ℕ) : Drawer :=
  let gs := compute_grid_size width height
  { d with
    screen_width := width
    screen_height := height
    grid_width := gs.1
    grid_height := gs.2 }

/-- `glCopyBufferSubData(src, dst, 0, 0, len)` at `f32` granularity: replace
the first `n` slots of `dst` with the first `n` slots of `src` (byte length
`4 * n`). -/
def copyBufferSubData (src dst : List ℚ) (n : ℕ) : List ℚ :=
  src.take n ++ dst.drop n

/-- `Drawer::place_lines` (drawer.rs lines 513-582): after the feedback
pass has filled the feedback buffer (its contents are the GPU-computed
argument `feedback`), copy `size_of::<LineState>() * line_count` bytes —
`10 * line_count` `f32` slots — from the feedback buffer into the primary
line-state buffer at offset 0. -/
def Drawer.place_lines (d : Drawer) (feedback : List ℚ) : Drawer :=
  { d with line_state_buffer :=
      copyBufferSubData feedback d.line_state_buffer (10 * d.line_count) }

/-! ## Sample data for concrete evaluations -/

/-- A concrete noise config: delay 0.5 and blend duration 1, as in the
spec's concrete scenarios. -/
def sampleNoise : Noise :=
  { scale := 3
    offset_1 := 2
    offset_2 := 5
    multiplier := 1
    blend_threshold := 1/2
    offset_increment := 1/10
    delay := 1/2
    blend_duration := 1
    blend_method := BlendMethod.Curl }

/-- A second concrete noise config, distinct from `sampleNoise`. -/
def sampleNoise2 : Noise :=
  { scale := 7
    offset_1 := 11
    offset_2 := 13
    multiplier := 2
    blend_threshold := 1/4
    offset_increment := 1/5
    delay := 1/4
    blend_duration := 2
    blend_method := BlendMethod.Wiggle }

/-- A concrete channel as `add_noise` would create it at t = 0 on a 4×2
injector, with texture handle 7. -/
def sampleChannel : NoiseChannel :=
  { noise := sampleNoise
    textureId := 7
    blend_begin_time := 0
    last_blend_progress := 0
    offset1 := 2
    offset2 := 5
    uniforms := mkNoiseUniforms sampleNoise 4 2 }

/-- A concrete injector holding just `sampleChannel`. -/
def sampleInjector : NoiseInjector :=
  { channels := [sampleChannel], width := 4, height := 2 }

/-! ## Helper lemmas -/

lemma bufferSubData_length {buf vals : List ℚ} {off : ℕ}
    (h : off + vals.length ≤ buf.length) :
    (bufferSubData buf off vals).length = buf.length := by
  simp only [bufferSubData, List.length_append, List.length_take, List.length_drop]
  omega

lemma bufferSubData_getElem?_left {buf vals : List ℚ} {off i : ℕ}
    (hoff : off + vals.length ≤ buf.length) (hi : i < off) :
    (bufferSubData buf off vals)[i]? = buf[i]? := by
  unfold bufferSubData
  rw [List.getElem?_append_left, List.getElem?_append_left,
    List.getElem?_take_of_lt hi]
  · simp only [List.length_take]
    omega
  · simp only [List.length_append, List.length_take]
    omega

lemma bufferSubData_getElem?_right {buf vals : List ℚ} {off i : ℕ}
    (hoff : off + vals.length ≤ buf.length) (hi : off + vals.length ≤ i) :
    (bufferSubData buf off vals)[i]? = buf[i]? := by
  unfold bufferSubData
  rw [List.getElem?_append_right, List.getElem?_drop]
  · congr 1
    simp only [List.length_append, List.length_take]
    omega
  · simp only [List.length_append, List.length_take]
    omega

lemma tick_uniforms_getElem? (c : NoiseChannel) (t : ℚ)
    (hlen : c.uniforms.length = 8) {i : ℕ} (h1 : i ≠ 1) (h2 : i ≠ 2) :
    (c.tick t).uniforms[i]? = c.uniforms[i]? := by
  show (bufferSubData c.uniforms 1 [_, _])[i]? = c.uniforms[i]?
  rcases Nat.lt_or_ge i 1 with hi | hi
  · exact bufferSubData_getElem?_left (by simp [hlen]) hi
  · exact bufferSubData_getElem?_right (by simp [hlen]) (by simpa using by omega)

lemma tick_uniforms_length (c : NoiseChannel) (t : ℚ)
    (hlen : c.uniforms.length = 8) : (c.tick t).uniforms.length = 8 := by
  show (bufferSubData c.uniforms 1 [_, _]).length = 8
  rw [bufferSubData_length (by simp [hlen])]
  exact hlen

lemma foldl_tick_spec (ts : List ℚ) :
    ∀ c : NoiseChannel, c.uniforms.length = 8 →
      (ts.foldl NoiseChannel.tick c).noise = c.noise ∧
      (ts.foldl NoiseChannel.tick c).uniforms.length = 8 ∧
      (ts.foldl NoiseChannel.tick c).offset1
        = c.offset1 + ts.length * c.noise.offset_increment ∧
      (ts.foldl NoiseChannel.tick c).offset2
        = c.offset2 + ts.length * c.noise.offset_increment ∧
      ∀ i, i ≠ 1 → i ≠ 2 →
        (ts.foldl NoiseChannel.tick c).uniforms[i]? = c.uniforms[i]? := by
  induction ts with
  | nil =>
    intro c hlen
    refine ⟨rfl, hlen, by simp, by simp, fun i _ _ => rfl⟩
  | cons t rest ih =>
    intro c hlen
    have hstep : (c.tick t).uniforms.length = 8 := tick_uniforms_length c t hlen
    obtain ⟨hn, hl, h1, h2, hu⟩ := ih (c.tick t) hstep
    have hnoise : (c.tick t).noise = c.noise := rfl
    have ho1 : (c.tick t).offset1 = c.offset1 + c.noise.offset_increment := rfl
    have ho2 : (c.tick t).offset2 = c.offset2 + c.noise.offset_increment := rfl
    refine ⟨by simpa [hnoise] using hn, hl, ?_, ?_, ?_⟩
    · rw [List.foldl_cons, h1, hnoise, ho1]
      push_cast [List.length_cons]
      ring
    · rw [List.foldl_cons, h2, hnoise, ho2]
      push_cast [List.length_cons]
      ring
    · intro i hi1 hi2
      rw [List.foldl_cons, hu i hi1 hi2, tick_uniforms_getElem? c t hlen hi1 hi2]

/-! ## The claims -/

/-- **C3**: applying `tick` N times (here: folding over any list of N
elapsed times) advances `offset1` and `offset2` by exactly
N × `offset_increment`, and the uniform-buffer write of `tick` touches only
slots 1 and 2 (bytes 4..12): every other slot, and the buffer length, are
unchanged; each single `tick` also sets `blend_begin_time` to the elapsed
time, sets `last_blend_progress` to 0, and its buffer write is exactly the
sub-range update at slot offset 1 with the two new accumulator values. -/
theorem c3_tick_advances_offsets_and_writes_only_offset_range
    (c : NoiseChannel) (ts : List ℚ) (hlen : c.uniforms.length = 8) :
    ((ts.foldl NoiseChannel.tick c).offset1
        = c.offset1 + ts.length * c.noise.offset_increment) ∧
    ((ts.foldl NoiseChannel.tick c).offset2
        = c.offset2 + ts.length * c.noise.offset_increment) ∧
    ((ts.foldl NoiseChannel.tick c).uniforms.length = c.uniforms.length) ∧
    (∀ i, i ≠ 1 → i ≠ 2 →
        (ts.foldl NoiseChannel.tick c).uniforms[i]? = c.uniforms[i]?) ∧
    (∀ t0, (c.tick t0).blend_begin_time = t0 ∧
        (c.tick t0).last_blend_progress = 0 ∧
        (c.tick t0).uniforms = bufferSubData c.uniforms 1
          [c.offset1 + c.noise.offset_increment,
           c.offset2 + c.noise.offset_increment]) := by
  obtain ⟨_, hl, h1, h2, hu⟩ := foldl_tick_spec ts c hlen
  exact ⟨h1, h2, by rw [hl, hlen], hu, fun t0 => ⟨rfl, rfl, rfl⟩⟩

/-- Witness for C3 at a concrete channel and two ticks. -/
theorem c3_witness :
    (List.foldl NoiseChannel.tick sampleChannel [0, 1/2]).offset1
      = sampleChannel.offset1
        + (([0, 1/2] : List ℚ).length : ℚ) * sampleChannel.noise.offset_increment :=
  (c3_tick_advances_offsets_and_writes_only_offset_range sampleChannel
    [0, 1/2] (by rfl)).1

/-- **C4**: `add_noise(config)` immediately followed by `update_channel` on
the new channel with the same config leaves the channel's uniform buffer
byte-identical to a uniform buffer populated once directly from that
config (`mkNoiseUniforms`): frequency = scale, offset_1, offset_2,
multiplier, texel_size = [1/width, 1/height], blend_threshold, pad = 0. -/
theorem c4_add_then_update_uniforms_idempotent
    (inj : NoiseInjector) (cfg : Noise) (tex : ℕ) :
    ((((inj.add_noise cfg tex).update_channel inj.channels.length
        cfg).channels[inj.channels.length]?).map NoiseChannel.uniforms
      = some (mkNoiseUniforms cfg inj.width inj.height)) ∧
    (((inj.add_noise cfg tex).channels[inj.channels.length]?).map
        NoiseChannel.uniforms
      = some (mkNoiseUniforms cfg inj.width inj.height)) := by
  have hlt : inj.channels.length < (inj.add_noise cfg tex).channels.length := by
    simp [NoiseInjector.add_noise]
  have hget : (inj.add_noise cfg tex).channels[inj.channels.length]?
      = some { noise := cfg
               textureId := tex
               blend_begin_time := 0
               last_blend_progress := 0
               offset1 := cfg.offset_1
               offset2 := cfg.offset_2
               uniforms := mkNoiseUniforms cfg inj.width inj.height } :=
    List.getElem?_concat_length ..
  constructor
  · rw [NoiseInjector.update_channel, if_pos hlt]
    simp only [NoiseInjector.add_noise] at hget ⊢
    rw [List.getElem?_modify, hget]
    simp [updateChannelNoise, bufferSubData, mkNoiseUniforms]
  · rw [hget]
    rfl

/-- Witness for C4 (no propositional hypotheses; concrete instantiation of
the universally quantified statement). -/
theorem c4_witness :
    ((((sampleInjector.add_noise sampleNoise2 9).update_channel
        sampleInjector.channels.length
        sampleNoise2).channels[sampleInjector.channels.length]?).map
        NoiseChannel.uniforms
      = some (mkNoiseUniforms sampleNoise2 sampleInjector.width
          sampleInjector.height)) :=
  (c4_add_then_update_uniforms_idempotent sampleInjector sampleNoise2 9).1

/-- **C5**: for positive dimensions, `compute_grid_size` returns 1000 in
the first component when w > h and 1000 in the second component when
w ≤ h; the other axis is 1000 scaled by the aspect ratio and truncated
toward zero (`as u32`), i.e. natural-number division; concretely
`compute_grid_size 1920 1080 = (1000, 562)`. -/
theorem c5_compute_grid_size_spec (w h : ℕ) (_hw : 0 < w) (hh : 0 < h) :
    ((h < w → (compute_grid_size w h).1 = 1000 ∧
        (compute_grid_size w h).2 = 1000 * h / w) ∧
     (w ≤ h → (compute_grid_size w h).2 = 1000 ∧
        (compute_grid_size w h).1 = 1000 * w / h)) ∧
    compute_grid_size 1920 1080 = (1000, 562) := by
  constructor
  · have hh' : (0 : ℚ) < (h : ℚ) := by exact_mod_cast hh
    have hiff : (1 < (w : ℚ) / (h : ℚ)) ↔ h < w := by
      rw [one_lt_div hh']
      exact_mod_cast Nat.cast_lt
    constructor
    · intro hlt
      have hcond : 1 < (w : ℚ) / (h : ℚ) := hiff.mpr hlt
      simp only [compute_grid_size, if_pos hcond]
      refine ⟨trivial, ?_⟩
      rw [div_div_eq_mul_div,
        show (((1000 : ℕ) : ℚ)) * (h : ℚ) = ((1000 * h : ℕ) : ℚ) by
          push_cast; ring,
        Nat.floor_div_nat, Nat.floor_natCast]
    · intro hle
      have hcond : ¬(1 < (w : ℚ) / (h : ℚ)) := by
        rw [hiff]
        omega
      simp only [compute_grid_size, if_neg hcond]
      refine ⟨trivial, ?_⟩
      rw [← mul_div_assoc,
        show (((1000 : ℕ) : ℚ)) * (w : ℚ) = ((1000 * w : ℕ) : ℚ) by
          push_cast; ring,
        Nat.floor_div_nat, Nat.floor_natCast]
  · norm_num [compute_grid_size]
    rw [Nat.floor_eq_iff] <;> norm_num

/-- Witness for C5 at the spec's concrete screen size 1920×1080. -/
theorem c5_witness :
    compute_grid_size 1920 1080 = (1000, 562) :=
  (c5_compute_grid_size_spec 1920 1080 (by norm_num) (by norm_num)).2

/-- **C6**: `line_count` is fixed at construction as
`(grid_width / grid_spacing) * (grid_height / grid_spacing)` with integer
division and `resize` leaves both `line_count` and the line-state buffer
untouched; with 1920×1080 and spacing 10 the grid is (1000, 562) and
`line_count = 100 * 56 = 5600`. -/
theorem c6_line_count_fixed_resize_preserves :
    (∀ w h s, (Drawer.new w h s).line_count
        = ((compute_grid_size w h).1 / s) * ((compute_grid_size w h).2 / s)) ∧
    (∀ (d : Drawer) (w h : ℕ),
        (d.resize w h).line_count = d.line_count ∧
        (d.resize w h).line_state_buffer = d.line_state_buffer ∧
        (d.resize w h).grid_spacing = d.grid_spacing) ∧
    (Drawer.new 1920 1080 10).line_count = 5600 := by
  refine ⟨fun w h s => rfl, fun d w h => ⟨rfl, rfl, rfl⟩, ?_⟩
  show ((compute_grid_size 1920 1080).1 / 10)
      * ((compute_grid_size 1920 1080).2 / 10) = 5600
  have h562 : ⌊(1125 / 2 : ℚ)⌋₊ = 562 := by
    rw [Nat.floor_eq_iff] <;> norm_num
  norm_num [compute_grid_size, h562]

lemma foldl_place_lines_spec (lc : ℕ) (fbs : List (List ℚ)) :
    ∀ d : Drawer, d.line_count = lc →
      (∀ fb ∈ fbs, fb.length = 10 * lc) →
      d.line_state_buffer.length = 10 * lc →
      (fbs.foldl Drawer.place_lines d).line_count = lc ∧
      (fbs.foldl Drawer.place_lines d).line_state_buffer.length = 10 * lc := by
  induction fbs with
  | nil =>
    intro d h1 _ h3
    exact ⟨h1, h3⟩
  | cons fb rest ih =>
    intro d h1 hall h3
    have hfb : fb.length = 10 * lc := hall fb (List.mem_cons_self fb rest)
    have hcount : (d.place_lines fb).line_count = lc := h1
    have hlen : (d.place_lines fb).line_state_buffer.length = 10 * lc := by
      simp only [Drawer.place_lines, copyBufferSubData, List.length_append,
        List.length_take, List.length_drop, hfb, h3, h1]
      omega
    exact ih (d.place_lines fb) hcount
      (fun x hx => hall x (List.mem_cons_of_mem _ hx)) hlen

/-- **C7**: `place_lines` copies exactly
`line_count × size_of::<LineState>() = line_count × 40` bytes
(`10 × line_count` `f32` slots, `LineState` being 10 `f32` fields) from
the feedback buffer into the primary line-state buffer at offset 0, so the
line-state buffer's byte size is invariant under `place_lines` across
arbitrarily many simulation steps. -/
theorem c7_place_lines_copy_size_invariant (d : Drawer) (fbs : List (List ℚ))
    (hbuf : 4 * d.line_state_buffer.length = d.line_count * LineState.sizeOfBytes)
    (hfbs : ∀ fb ∈ fbs, 4 * fb.length = d.line_count * LineState.sizeOfBytes) :
    LineState.sizeOfBytes = 40 ∧
    (∀ fb, (d.place_lines fb).line_state_buffer
        = copyBufferSubData fb d.line_state_buffer (10 * d.line_count)) ∧
    (fbs.foldl Drawer.place_lines d).line_count = d.line_count ∧
    4 * (fbs.foldl Drawer.place_lines d).line_state_buffer.length
      = d.line_count * LineState.sizeOfBytes := by
  have h40 : LineState.sizeOfBytes = 40 := rfl
  have hbuf' : d.line_state_buffer.length = 10 * d.line_count := by
    rw [h40] at hbuf
    omega
  have hfbs' : ∀ fb ∈ fbs, fb.length = 10 * d.line_count := by
    intro fb hfb
    have := hfbs fb hfb
    rw [h40] at this
    omega
  obtain ⟨hc, hl⟩ :=
    foldl_place_lines_spec d.line_count fbs d rfl hfbs' hbuf'
  refine ⟨h40, fun fb => rfl, hc, ?_⟩
  rw [hl, h40]
  ring

/-- A concrete drawer with one line and a 10-slot line-state buffer. -/
def sampleDrawer : Drawer :=
  { grid_spacing := 10
    screen_width := 4
    screen_height := 2
    grid_width := 4
    grid_height := 2
    line_count := 1
    line_state_buffer := List.replicate 10 0 }

/-- Witness for C7 at the concrete drawer with one feedback frame. -/
theorem c7_witness :
    4 * (([List.replicate 10 (1 : ℚ)].foldl Drawer.place_lines
        sampleDrawer).line_state_buffer.length)
      = sampleDrawer.line_count * LineState.sizeOfBytes :=
  (c7_place_lines_copy_size_invariant sampleDrawer [List.replicate 10 (1 : ℚ)]
    (by decide) (by decide)).2.2.2

/-- **C9**: for every channel index out of bounds, `update_channel` and
`generate_by_channel_number` are silent no-ops: they return the injector
unchanged and issue no GPU commands. -/
theorem c9_invalid_handle_silent_noop (inj : NoiseInjector) (n : ℕ) (t : ℚ)
    (cfg : Noise) (h : inj.channels.length ≤ n) :
    inj.update_channel n cfg = inj ∧
    inj.generate_by_channel_number n t = (inj, []) := by
  constructor
  · simp [NoiseInjector.update_channel, Nat.not_lt.mpr h]
  · have hnone : inj.channels[n]? = none := List.getElem?_eq_none h
    simp [NoiseInjector.generate_by_channel_number, hnone]

/-- Witness for C9 at the concrete one-channel injector and index 5. -/
theorem c9_witness :
    sampleInjector.update_channel 5 sampleNoise2 = sampleInjector ∧
    sampleInjector.generate_by_channel_number 5 0 = (sampleInjector, []) :=
  c9_invalid_handle_silent_noop sampleInjector 5 0 sampleNoise2
    (by decide)

/-- **C2**: per channel, `blend_noise_into` computes
`progress = clamp((elapsed_time - blend_begin_time)/blend_duration, 0, 1)`;
if `progress >= 1 - 1e-4` the channel emits zero draw calls and is left
unchanged; otherwise it emits exactly one draw whose blend-weight uniform is
`progress - last_blend_progress`, with the shader selected by
`blend_method`, the target texture and the channel's noise texture bound as
the two samplers, and afterwards `last_blend_progress = progress`. -/
theorem c2_blend_step_spec (targetTex : ℕ) (t : ℚ) (c : NoiseChannel) :
    (progressOf c t
        = max 0 (min 1 ((t - c.blend_begin_time) / c.noise.blend_duration))) ∧
    (1 - 1/10000 ≤ progressOf c t →
        blendChannelStep targetTex t c = (c, [])) ∧
    (progressOf c t < 1 - 1/10000 →
        blendChannelStep targetTex t c =
          ({ c with last_blend_progress := progressOf c t },
           [{ shader := blendShader c.noise.blend_method
              uBlendProgress := some (progressOf c t - c.last_blend_progress)
              tex0 := some targetTex
              tex1 := some c.textureId
              uniformBlock := c.uniforms
              target := targetTex }])) := by
  refine ⟨rfl, ?_, ?_⟩
  · intro h
    simp only [blendChannelStep]
    rw [if_pos h]
  · intro h
    simp only [blendChannelStep]
    rw [if_neg (not_le.mpr h)]

/-- Witness for C2: a concrete channel halfway through its blend emits the
single expected draw call. -/
theorem c2_witness :
    blendChannelStep 9 (1/2) sampleChannel =
      ({ sampleChannel with
          last_blend_progress := progressOf sampleChannel (1/2) },
       [{ shader := blendShader sampleChannel.noise.blend_method
          uBlendProgress :=
            some (progressOf sampleChannel (1/2)
              - sampleChannel.last_blend_progress)
          tex0 := some 9
          tex1 := some sampleChannel.textureId
          uniformBlock := sampleChannel.uniforms
          target := 9 }]) :=
  (c2_blend_step_spec 9 (1/2) sampleChannel).2.2
    (by norm_num [progressOf, sampleChannel, sampleNoise])

/-- **C1** counterexample: the claim asserts the delay throttle also
governs `generate_by_channel_number`, but that function performs no delay
comparison. With delay 0.5 and `blend_begin_time = 0`, a call at t = 0.3
(where `t - blend_begin_time < delay`) still issues a generation pass and
changes state (`blend_begin_time` becomes 0.3). -/
theorem c1_counterexample :
    ((3/10 : ℚ) - sampleChannel.blend_begin_time < sampleChannel.noise.delay) ∧
    (sampleInjector.generate_by_channel_number 0 (3/10)).2 ≠ [] ∧
    ((sampleInjector.generate_by_channel_number 0 (3/10)).1.channels.map
        NoiseChannel.blend_begin_time
      ≠ sampleInjector.channels.map NoiseChannel.blend_begin_time) := by
  refine ⟨by norm_num [sampleChannel, sampleNoise], ?_, ?_⟩
  · simp [NoiseInjector.generate_by_channel_number, sampleInjector]
  · simp [NoiseInjector.generate_by_channel_number, sampleInjector,
      List.modify, NoiseChannel.tick, sampleChannel, sampleNoise]

/-- **C1 (amended)**: the delay throttle holds for `generate_all`: each
channel runs the generation pass only when
`elapsed_time - blend_begin_time >= delay` (otherwise it is skipped with no
pass and no state change), and an executing channel is ticked immediately
afterwards so `blend_begin_time` becomes `elapsed_time`. By contrast,
`generate_by_channel_number` executes the pass and ticks unconditionally
for any in-bounds index. -/
theorem c1_amended_generate_throttling :
    (∀ (t : ℚ) (c : NoiseChannel),
        (t - c.blend_begin_time < c.noise.delay → generateStep t c = (c, [])) ∧
        (c.noise.delay ≤ t - c.blend_begin_time →
            generateStep t c = (c.tick t, [genDraw c]) ∧
            (c.tick t).blend_begin_time = t)) ∧
    (∀ (inj : NoiseInjector) (t : ℚ),
        inj.generate_all t =
          ({ inj with channels :=
              inj.channels.map (fun c => (generateStep t c).1) },
           (inj.channels.map (fun c => (generateStep t c).2)).flatten)) ∧
    (∀ (inj : NoiseInjector) (n : ℕ) (t : ℚ) (c : NoiseChannel),
        inj.channels[n]? = some c →
        inj.generate_by_channel_number n t =
          ({ inj with channels :=
              inj.channels.modify (fun ch => ch.tick t) n },
           [genDraw c])) := by
  refine ⟨fun t c => ⟨?_, fun h => ⟨?_, rfl⟩⟩, fun inj t => rfl, ?_⟩
  · intro h
    simp only [generateStep]
    rw [if_neg (not_le.mpr h)]
  · simp only [generateStep]
    rw [if_pos h]
  · intro inj n t c hc
    simp only [NoiseInjector.generate_by_channel_number]
    rw [hc]

/-- Witness for the amended C1: the spec's concrete scenario — delay 0.5,
ticked at t = 0, `generate_all`-style step at t = 0.3 is a no-op, at
t = 0.6 it executes and resets `blend_begin_time` to 0.6 — plus the
unconditional per-handle execution at t = 0.3. -/
theorem c1_amended_witness :
    generateStep (3/10) sampleChannel = (sampleChannel, []) ∧
    (generateStep (3/5) sampleChannel
        = (sampleChannel.tick (3/5), [genDraw sampleChannel]) ∧
      (sampleChannel.tick (3/5)).blend_begin_time = 3/5) ∧
    sampleInjector.generate_by_channel_number 0 (3/10) =
      ({ sampleInjector with channels :=
          sampleInjector.channels.modify (fun ch => ch.tick (3/10)) 0 },
       [genDraw sampleChannel]) :=
  ⟨(c1_amended_generate_throttling.1 (3/10) sampleChannel).1
      (by norm_num [sampleChannel, sampleNoise]),
   (c1_amended_generate_throttling.1 (3/5) sampleChannel).2
      (by norm_num [sampleChannel, sampleNoise]),
   c1_amended_generate_throttling.2.2 sampleInjector 0 (3/10) sampleChannel
      (by rfl)⟩

/-- **C10**: for a valid index, `update_channel` mutates only that
channel's stored config and uniform-buffer contents; `blend_begin_time`,
`last_blend_progress` and the phase accumulators `offset1`/`offset2` of
that channel, and every other channel, are unchanged. The uniform buffer's
offset slots are rewritten from the new config's `offset_1`/`offset_2`
(not from the accumulators), and the next `tick` overwrites them with
accumulator + the (new) `offset_increment`. -/
theorem c10_update_channel_mutates_only_config_and_uniforms
    (inj : NoiseInjector) (n : ℕ) (cfg : Noise) (c : NoiseChannel)
    (hc : inj.channels[n]? = some c) :
    ((inj.update_channel n cfg).channels[n]?
        = some (updateChannelNoise c cfg inj.width inj.height)) ∧
    (∀ m, m ≠ n →
        (inj.update_channel n cfg).channels[m]? = inj.channels[m]?) ∧
    ((updateChannelNoise c cfg inj.width inj.height).noise = cfg) ∧
    ((updateChannelNoise c cfg inj.width inj.height).blend_begin_time
        = c.blend_begin_time) ∧
    ((updateChannelNoise c cfg inj.width inj.height).last_blend_progress
        = c.last_blend_progress) ∧
    ((updateChannelNoise c cfg inj.width inj.height).offset1 = c.offset1) ∧
    ((updateChannelNoise c cfg inj.width inj.height).offset2 = c.offset2) ∧
    (c.uniforms.length = 8 →
        (updateChannelNoise c cfg inj.width inj.height).uniforms
          = mkNoiseUniforms cfg inj.width inj.height) ∧
    ((updateChannelNoise c cfg inj.width inj.height).uniforms[1]?
        = some cfg.offset_1 ∧
     (updateChannelNoise c cfg inj.width inj.height).uniforms[2]?
        = some cfg.offset_2) ∧
    (∀ t, ((updateChannelNoise c cfg inj.width inj.height).tick t).uniforms[1]?
          = some (c.offset1 + cfg.offset_increment) ∧
        ((updateChannelNoise c cfg inj.width inj.height).tick t).uniforms[2]?
          = some (c.offset2 + cfg.offset_increment)) := by
  have hlt : n < inj.channels.length := by
    by_contra hn
    rw [List.getElem?_eq_none (by omega)] at hc
    exact absurd hc (by simp)
  refine ⟨?_, ?_, rfl, rfl, rfl, rfl, rfl, ?_, ?_, ?_⟩
  · rw [NoiseInjector.update_channel, if_pos hlt]
    simp only [List.getElem?_modify, hc, Option.map_eq_map, Option.map_some]
    simp
  · intro m hm
    rw [NoiseInjector.update_channel, if_pos hlt]
    simp only [List.getElem?_modify]
    rcases h : inj.channels[m]? with _ | ch
    · simp
    · simp [Ne.symm hm]
  · intro hlen
    simp only [updateChannelNoise, bufferSubData, List.take_zero,
      Nat.zero_add, List.nil_append]
    rw [show (mkNoiseUniforms cfg inj.width inj.height).length = 8 from rfl,
      List.drop_eq_nil_of_le (by omega), List.append_nil]
  · constructor <;>
      simp [updateChannelNoise, bufferSubData, mkNoiseUniforms]
  · intro t
    constructor <;>
      simp [updateChannelNoise, NoiseChannel.tick, bufferSubData,
        mkNoiseUniforms]

/-- Witness for C10 at the concrete one-channel injector. -/
theorem c10_witness :
    (sampleInjector.update_channel 0 sampleNoise2).channels[0]?
      = some (updateChannelNoise sampleChannel sampleNoise2
          sampleInjector.width sampleInjector.height) :=
  (c10_update_channel_mutates_only_config_and_uniforms sampleInjector 0
    sampleNoise2 sampleChannel (by rfl)).1

lemma progressOf_nonneg (c : NoiseChannel) (t : ℚ) : 0 ≤ progressOf c t :=
  le_max_left 0 _

lemma progressOf_mono (c : NoiseChannel) (hd : 0 < c.noise.blend_duration)
    {t t' : ℚ} (h : t ≤ t') : progressOf c t ≤ progressOf c t' := by
  unfold progressOf
  refine max_le_max le_rfl (min_le_min le_rfl ?_)
  exact (div_le_div_iff_of_pos_right hd).mpr (by linarith)

lemma blendStep_fields (target : ℕ) (t : ℚ) (c : NoiseChannel) :
    ((blendChannelStep target t c).1).blend_begin_time = c.blend_begin_time ∧
    ((blendChannelStep target t c).1).noise = c.noise := by
  simp only [blendChannelStep]
  split <;> exact ⟨rfl, rfl⟩

lemma progressOf_congr {c c' : NoiseChannel}
    (hb : c'.blend_begin_time = c.blend_begin_time) (hn : c'.noise = c.noise)
    (t : ℚ) : progressOf c' t = progressOf c t := by
  unfold progressOf
  rw [hb, hn]

lemma blendStep_last_le (target : ℕ) (t : ℚ) (c : NoiseChannel)
    (h : c.last_blend_progress ≤ progressOf c t) :
    c.last_blend_progress
        ≤ ((blendChannelStep target t c).1).last_blend_progress ∧
    ((blendChannelStep target t c).1).last_blend_progress ≤ progressOf c t := by
  simp only [blendChannelStep]
  split
  · exact ⟨le_rfl, h⟩
  · exact ⟨h, le_rfl⟩

lemma scanl_head? {α β : Type} (f : β → α → β) (b : β) (l : List α) :
    (List.scanl f b l).head? = some b := by
  cases l <;> simp [List.scanl]

lemma blendTrace_chain (target : ℕ) :
    ∀ (ts : List ℚ) (c : NoiseChannel) (t0 : ℚ),
      0 < c.noise.blend_duration →
      c.last_blend_progress ≤ progressOf c t0 →
      List.Chain (· ≤ ·) t0 ts →
      List.Chain' (· ≤ ·)
        ((ts.scanl (fun ch t => (blendChannelStep target t ch).1) c).map
          NoiseChannel.last_blend_progress) := by
  intro ts
  induction ts with
  | nil =>
    intro c t0 _ _ _
    simp [List.scanl]
  | cons t rest ih =>
    intro c t0 hd hle hchain
    rcases hchain with _ | ⟨ht0t, hchain'⟩
    have hle_t : c.last_blend_progress ≤ progressOf c t :=
      le_trans hle (progressOf_mono c hd ht0t)
    have hfields := blendStep_fields target t c
    have hstep := blendStep_last_le target t c hle_t
    rw [List.scanl_cons, List.singleton_append, List.map_cons,
      List.chain'_cons']
    constructor
    · intro y hy
      rw [List.head?_map, scanl_head?] at hy
      simp only [Option.map_some', Option.mem_def, Option.some.injEq] at hy
      exact hy ▸ hstep.1
    · apply ih ((blendChannelStep target t c).1) t
      · rw [hfields.2]
        exact hd
      · calc ((blendChannelStep target t c).1).last_blend_progress
            ≤ progressOf c t := hstep.2
          _ = progressOf ((blendChannelStep target t c).1) t :=
            (progressOf_congr hfields.1 hfields.2 t).symm
      · exact hchain'

/-- **C8**: under non-decreasing elapsed times, a channel's
`last_blend_progress` is monotonically non-decreasing within one blend
cycle (the sequence of `blend_noise_into` frames following a `tick`), and
it is reset to 0 exactly when `blend_begin_time` is reset: `tick` — the
only operation that resets `blend_begin_time` — simultaneously zeroes
`last_blend_progress`, while `update_channel` leaves both fields unchanged
and a blend step never changes `blend_begin_time`. -/
theorem c8_last_blend_progress_monotone :
    (∀ (c : NoiseChannel) (t : ℚ),
        (c.tick t).blend_begin_time = t ∧ (c.tick t).last_blend_progress = 0) ∧
    (∀ (c : NoiseChannel) (cfg : Noise) (w h : ℕ),
        (updateChannelNoise c cfg w h).last_blend_progress
            = c.last_blend_progress ∧
        (updateChannelNoise c cfg w h).blend_begin_time
            = c.blend_begin_time) ∧
    (∀ (target : ℕ) (t : ℚ) (c : NoiseChannel),
        ((blendChannelStep target t c).1).blend_begin_time
          = c.blend_begin_time) ∧
    (∀ (target : ℕ) (c : NoiseChannel) (t0 : ℚ) (ts : List ℚ),
        0 < c.noise.blend_duration →
        List.Chain (· ≤ ·) t0 ts →
        List.Chain' (· ≤ ·) (blendLastTrace target (c.tick t0) ts)) := by
  refine ⟨fun c t => ⟨rfl, rfl⟩, fun c cfg w h => ⟨rfl, rfl⟩,
    fun target t c => (blendStep_fields target t c).1, ?_⟩
  intro target c t0 ts hd hchain
  unfold blendLastTrace
  apply blendTrace_chain target ts (c.tick t0) t0
  · exact hd
  · show (0 : ℚ) ≤ progressOf (c.tick t0) t0
    exact progressOf_nonneg _ _
  · exact hchain

/-- Witness for C8: the concrete channel ticked at t = 0 and blended at
t = 1/4 then t = 1/2 has a non-decreasing progress trace. -/
theorem c8_witness :
    List.Chain' (· ≤ ·) (blendLastTrace 9 (sampleChannel.tick 0) [1/4, 1/2]) :=
  c8_last_blend_progress_monotone.2.2.2 9 sampleChannel 0 [1/4, 1/2]
    (by norm_num [sampleChannel, sampleNoise])
    (List.Chain.cons (by norm_num)
      (List.Chain.cons (by norm_num) List.Chain.nil))
